import Mathlib

/-!
Verification of the `zstd-learning` batch tools (data generator, dictionary
trainer, compressor, decompressor) against their natural-language
specification.

The Go sources are shallowly embedded:
* file contents are `Bytes := List Nat` (one `Nat` per byte);
* file paths are `Fpath := List Char` (Go strings compared byte-wise);
* the on-disk input tree is the inductive `FsNode` / `FsEntries`
  (regular files, directories, and unreadable nodes for I/O faults);
* the external zstd codec, the external dictionary-training routine and
  the JSON marshaller are out of scope of the spec and are taken as
  function parameters of the pipelines that call them;
* each tool's `main` is modelled as a pure function from its resolved
  flags and abstract inputs to a `RunResult` that records the sequence
  of side-effecting steps (`trace`), the files written (`outputs`), the
  exit code and the error reported on stderr, mirroring the order of
  statements in the Go `main` functions.
-/

abbrev Bytes := List Nat

abbrev Fpath := List Char

/-! ## `bytesTrimSpace` (cmd/train-dict main.go)

The Go helper trims the bytes `' '`, `'\n'`, `'\r'`, `'\t'` from both ends
of a slice: it first advances `start` over trim bytes, then retreats `end`.
-/

def isTrimByte (b : Nat) : Bool :=
  b == 32 || b == 10 || b == 13 || b == 9

def bytesTrimSpace (input : Bytes) : Bytes :=
  ((input.dropWhile isTrimByte).reverse.dropWhile isTrimByte).reverse

/-- ASCII whitespace in the conventional sense (`unicode.IsSpace` restricted
to single-byte values): HT, LF, VT, FF, CR, SP.  This is the meaning of
"whitespace" in the specification; note the source's `bytesTrimSpace`
handles only four of these six bytes. -/
def isAsciiSpaceByte (b : Nat) : Bool :=
  b == 9 || b == 10 || b == 11 || b == 12 || b == 13 || b == 32

/-! ## Go `strings.TrimSpace` (used on flag values)

Modelled on the Latin-1 fragment of `unicode.IsSpace`; higher code points
play no role in any claim. -/

def goIsSpace (c : Char) : Bool :=
  c == ' ' || c == '\t' || c == '\n' || c == '\x0b' || c == '\x0c' ||
    c == '\r' || c == '\x85' || c == '\xa0'

def goTrimSpace (s : String) : List Char :=
  ((s.data.dropWhile goIsSpace).reverse.dropWhile goIsSpace).reverse

/-! ## Lexicographic path order (`sort.Strings` in listFiles) -/

def pathLe : Fpath → Fpath → Bool
  | [], _ => true
  | _ :: _, [] => false
  | a :: as, b :: bs => if a = b then pathLe as bs else decide (a < b)

def pathRel (a b : Fpath) : Prop := pathLe a b = true

instance : DecidableRel pathRel := fun a b =>
  inferInstanceAs (Decidable (pathLe a b = true))

theorem pathLe_total : ∀ a b : Fpath, pathLe a b = true ∨ pathLe b a = true
  | [], _ => Or.inl rfl
  | _ :: _, [] => Or.inr rfl
  | a :: as, b :: bs => by
    by_cases h : a = b
    · subst h
      simpa [pathLe] using pathLe_total as bs
    · rcases lt_or_gt_of_ne h with hlt | hgt
      · exact Or.inl (by simp [pathLe, h, hlt])
      · exact Or.inr (by simp [pathLe, Ne.symm h, hgt])

theorem pathLe_trans :
    ∀ a b c : Fpath, pathLe a b = true → pathLe b c = true → pathLe a c = true
  | [], _, _, _, _ => rfl
  | _ :: _, [], _, h, _ => by simp [pathLe] at h
  | _ :: _, _ :: _, [], _, h => by simp [pathLe] at h
  | a :: as, b :: bs, c :: cs, h1, h2 => by
    by_cases hab : a = b <;> by_cases hbc : b = c
    · subst hab; subst hbc
      simp only [pathLe, if_pos rfl] at h1 h2 ⊢
      exact pathLe_trans as bs cs h1 h2
    · subst hab
      simpa [pathLe, hbc] using h2
    · subst hbc
      simpa [pathLe, hab] using h1
    · simp only [pathLe, if_neg hab, decide_eq_true_eq] at h1
      simp only [pathLe, if_neg hbc, decide_eq_true_eq] at h2
      have hac : a < c := lt_trans h1 h2
      simp [pathLe, ne_of_lt hac, hac]

instance : IsTotal Fpath pathRel := ⟨pathLe_total⟩

instance : IsTrans Fpath pathRel := ⟨pathLe_trans⟩

def sortPaths (l : List Fpath) : List Fpath := List.insertionSort pathRel l

/-! ## The input filesystem tree

`filepath.WalkDir` traverses a directory tree; `unreadable` models a node
whose `DirEntry` callback receives an I/O error. -/

mutual

inductive FsNode where
  | file : Fpath → Bytes → FsNode
  | unreadable : Fpath → FsNode
  | dir : Fpath → FsEntries → FsNode

inductive FsEntries where
  | nil : FsEntries
  | cons : FsNode → FsEntries → FsEntries

end

def childPath (pre : Fpath) (name : Fpath) : Fpath := pre ++ '/' :: name

/-! `walkNode` embeds `listFiles`' WalkDir callback: propagate I/O errors,
skip directories themselves, skip zero-size files, collect the rest.
`allFilesNode` is the total collector of regular files (any size), used to
state what "the regular files beneath the root" are. -/

mutual

def walkNode (pre : Fpath) : FsNode → Except Unit (List (Fpath × Bytes))
  | .file n c => .ok (if c.length = 0 then [] else [(childPath pre n, c)])
  | .unreadable _ => .error ()
  | .dir n es => walkEntries (childPath pre n) es

def walkEntries (pre : Fpath) : FsEntries → Except Unit (List (Fpath × Bytes))
  | .nil => .ok []
  | .cons e rest =>
    match walkNode pre e with
    | .error u => .error u
    | .ok a =>
      match walkEntries pre rest with
      | .error u => .error u
      | .ok b => .ok (a ++ b)

end

mutual

def allFilesNode (pre : Fpath) : FsNode → List (Fpath × Bytes)
  | .file n c => [(childPath pre n, c)]
  | .unreadable _ => []
  | .dir n es => allFilesEntries (childPath pre n) es

def allFilesEntries (pre : Fpath) : FsEntries → List (Fpath × Bytes)
  | .nil => []
  | .cons e rest => allFilesNode pre e ++ allFilesEntries pre rest

end

mutual

def readableNode : FsNode → Bool
  | .file _ _ => true
  | .unreadable _ => false
  | .dir _ es => readableEntries es

def readableEntries : FsEntries → Bool
  | .nil => true
  | .cons e rest => readableNode e && readableEntries rest

end

/-- `listFiles` (identical in cmd/compress, cmd/decompress and
cmd/train-dict): walk the tree, keep non-empty regular files, sort the
paths with `sort.Strings`. -/
def listFilesT (root : FsNode) : Except Unit (List Fpath) :=
  match walkNode [] root with
  | .error u => .error u
  | .ok fs => .ok (sortPaths (fs.map (·.1)))

/-- Contents of the regular file at path `p` (the tools re-open listed
paths by name; listed paths always resolve). -/
def lookupFile (root : FsNode) (p : Fpath) : Option Bytes :=
  ((allFilesNode [] root).find? (fun f => f.1 == p)).map (·.2)

/-- The listed paths paired with the contents read back from the tree, in
listing order. -/
def sortedFilePairs (root : FsNode) : Except Unit (List (Fpath × Bytes)) :=
  match listFilesT root with
  | .error u => .error u
  | .ok ps => .ok (ps.map (fun p => (p, (lookupFile root p).getD [])))

mutual

theorem walkNode_eq (pre : Fpath) (t : FsNode) :
    walkNode pre t =
      if readableNode t then
        .ok ((allFilesNode pre t).filter (fun f => !f.2.isEmpty))
      else .error () := by
  cases t with
  | file n c =>
    cases c with
    | nil => simp [walkNode, readableNode, allFilesNode]
    | cons b bs => simp [walkNode, readableNode, allFilesNode, List.filter]
  | unreadable n => simp [walkNode, readableNode]
  | dir n es =>
    simp only [walkNode, readableNode, allFilesNode]
    rw [walkEntries_eq]

theorem walkEntries_eq (pre : Fpath) (es : FsEntries) :
    walkEntries pre es =
      if readableEntries es then
        .ok ((allFilesEntries pre es).filter (fun f => !f.2.isEmpty))
      else .error () := by
  cases es with
  | nil => simp [walkEntries, readableEntries, allFilesEntries]
  | cons e rest =>
    simp only [walkEntries, readableEntries, allFilesEntries]
    rw [walkNode_eq, walkEntries_eq]
    by_cases h1 : readableNode e <;> by_cases h2 : readableEntries rest <;>
      simp [h1, h2, List.filter_append]

end

/-! ## `readSamplesFromFile` (cmd/train-dict main.go)

The Go loop repeatedly `io.ReadFull`s a `maxBytes` buffer while fewer than
`maxSamples` samples were produced; a full chunk is trimmed and kept when
non-empty, a final partial chunk (`ErrUnexpectedEOF`, `n > 0`) is trimmed,
kept when non-empty, and ends the loop.  `readGo` carries the remaining
sample budget and uses the remaining file length as structural fuel: with
`maxBytes ≥ 1` (the tool validates `-max-sample-bytes` positive) each
iteration consumes at least one byte, so the fuel never runs out early. -/

def readGo (maxBytes : Nat) : Nat → Nat → Bytes → List Bytes × Nat
  | 0, _, _ => ([], 0)
  | fuel + 1, budget, contents =>
    if budget = 0 then ([], 0)
    else if contents.isEmpty then ([], 0)
    else if contents.length < maxBytes then
      let data := bytesTrimSpace contents
      if data.isEmpty then ([], 0) else ([data], data.length)
    else
      let data := bytesTrimSpace (contents.take maxBytes)
      let rest := contents.drop maxBytes
      if data.isEmpty then readGo maxBytes fuel budget rest
      else
        let r := readGo maxBytes fuel (budget - 1) rest
        (data :: r.1, data.length + r.2)

def readSamplesFromFile (maxBytes maxSamples : Nat) (contents : Bytes) :
    List Bytes × Nat :=
  readGo maxBytes contents.length maxSamples contents

/-! ## `collectSamples` (cmd/train-dict main.go) -/

structure SampleStats where
  FilesScanned : Nat
  Samples : Nat
  SampleBytes : Nat
deriving DecidableEq

def sampleStatsInit : SampleStats := ⟨0, 0, 0⟩

inductive CollectErr where
  | ioErr
  | noFiles
  | notEnough
deriving DecidableEq

/-- The per-path loop of `collectSamples`: stop once the global cap is
reached, read chunks from the next file with the remaining budget, skip
files that contributed no chunk, accumulate samples and statistics. -/
def collectLoop (maxSamples maxSampleBytes : Nat) :
    List (Fpath × Bytes) → List Bytes → SampleStats → List Bytes × SampleStats
  | [], samples, stats => (samples, stats)
  | f :: rest, samples, stats =>
    if maxSamples ≤ samples.length then (samples, stats)
    else
      let r := readSamplesFromFile maxSampleBytes (maxSamples - samples.length) f.2
      if r.1.isEmpty then collectLoop maxSamples maxSampleBytes rest samples stats
      else
        collectLoop maxSamples maxSampleBytes rest (samples ++ r.1)
          ⟨stats.FilesScanned + 1, stats.Samples + r.1.length,
            stats.SampleBytes + r.2⟩

def collectSamples (root : FsNode) (maxSamples maxSampleBytes : Nat) :
    Except CollectErr (List Bytes × SampleStats) :=
  match sortedFilePairs root with
  | .error _ => .error .ioErr
  | .ok files =>
    if files.isEmpty then .error .noFiles
    else
      let r := collectLoop maxSamples maxSampleBytes files [] sampleStatsInit
      if r.1.length < 2 then .error .notEnough else .ok r

/-- The samples the collection loop accumulates, whether or not
`collectSamples` subsequently rejects them ("fewer than two samples are
collected" in the specification). -/
def collectedSamples (root : FsNode) (maxSamples maxSampleBytes : Nat) :
    List Bytes :=
  match sortedFilePairs root with
  | .error _ => []
  | .ok files => (collectLoop maxSamples maxSampleBytes files [] sampleStatsInit).1

/-- Spec-side description of chunked reading: split the file into
consecutive `n`-byte chunks (the final one possibly shorter).  Used to
state that `readSamplesFromFile` reads sequential fixed-size chunks. -/
def chunksOf (n : Nat) : Bytes → List Bytes
  | [] => []
  | a :: as =>
    if _h : n = 0 then []
    else (a :: as).take n :: chunksOf n ((a :: as).drop n)
termination_by l => l.length
decreasing_by
  simp only [List.length_drop, List.length_cons]
  omega

/-! ## Compression and decompression pipelines

`compressFiles` / `decompressFiles` (cmd/compress main.go and
cmd/decompress main.go) iterate over the listed files; here a file is its
input-root-relative path (`filepath.Rel baseDir path`) paired with its
contents.  The zstd encoder/decoder instances built from the compression
level and optional dictionary are external collaborators, passed in as
the functions `encode` / `decode`. -/

structure RunStats where
  FilesProcessed : Nat
  InputBytes : Nat
  OutputBytes : Nat
deriving DecidableEq

def zstExt : Fpath := ['.', 'z', 's', 't']

def outExt : Fpath := ['.', 'o', 'u', 't']

/-- For each input file: write `encode contents` to the mirrored relative
path with `".zst"` appended; count input and output bytes. -/
def compressFiles (encode : Bytes → Bytes) :
    List (Fpath × Bytes) → List (Fpath × Bytes) × RunStats
  | [] => ([], ⟨0, 0, 0⟩)
  | (p, c) :: rest =>
    let out := encode c
    let r := compressFiles encode rest
    ((p ++ zstExt, out) :: r.1,
      ⟨r.2.FilesProcessed + 1, r.2.InputBytes + c.length,
        r.2.OutputBytes + out.length⟩)

/-- Go `strings.TrimSuffix`: drop `suffix` when present, else return the
string unchanged. -/
def goTrimSuffix (s suffix : Fpath) : Fpath :=
  if suffix.isSuffixOf s then s.take (s.length - suffix.length) else s

/-- Output-path derivation of `decompressFiles`: strip `".zst"`; when that
changes nothing (the name did not end in `".zst"`), append `".out"`. -/
def decompOutRel (rel : Fpath) : Fpath :=
  let outRel := goTrimSuffix rel zstExt
  if outRel = rel then rel ++ outExt else outRel

/-- For each input file: write `decode contents` to the derived relative
path; count the compressed size as input and the written bytes as
output. -/
def decompressFiles (decode : Bytes → Bytes) :
    List (Fpath × Bytes) → List (Fpath × Bytes) × RunStats
  | [] => ([], ⟨0, 0, 0⟩)
  | (p, c) :: rest =>
    let out := decode c
    let r := decompressFiles decode rest
    ((decompOutRel p, out) :: r.1,
      ⟨r.2.FilesProcessed + 1, r.2.InputBytes + c.length,
        r.2.OutputBytes + out.length⟩)

/-! ## Data generator (cmd/generate-data main.go)

The `math/rand` generator seeded from wall-clock time is external
nondeterminism; it is modelled as `Rng`, the stream of draws the process
makes: `intn k n` is the value of the `k`-th `Intn(n)` call of one record
(reduced modulo `n`, as `Intn` returns a value below its bound), `float64 k`
the value of a `Float64()` call (as a rational).  `now` stands for the
formatted wall-clock timestamp. -/

structure Rng where
  intn : Nat → Nat → Nat
  float64 : Nat → Rat

structure Movie where
  id : Nat
  title : String
  genre : String
  year : Nat
  director : String
  rating : Rat
  runtime : Nat
  createdAt : String
deriving DecidableEq

structure Book where
  id : Nat
  title : String
  author : String
  genre : String
  year : Nat
  pages : Nat
  rating : Rat
  createdAt : String
deriving DecidableEq

structure Person where
  id : Nat
  firstName : String
  lastName : String
  email : String
  city : String
  country : String
  age : Nat
  createdAt : String
deriving DecidableEq

def movieTitles : List String :=
  ["Silent Horizon", "Crimson Valley", "Echoes of Tomorrow", "Northbound",
    "Astra Drift", "Blue Lantern", "Midnight Harbor", "Glass River"]

def movieGenres : List String :=
  ["Drama", "Sci-Fi", "Thriller", "Comedy", "Adventure", "Mystery"]

def directors : List String :=
  ["Avery Quinn", "Morgan Ellis", "Riley Chen", "Harper Singh",
    "Jordan Blake", "Taylor Reyes"]

def bookTitles : List String :=
  ["The Last Orchard", "Paper Cities", "Sparks in Winter",
    "The River and the Road", "Atlas of Dust", "The Ninth Signal"]

def bookGenres : List String :=
  ["Fantasy", "Historical", "Non-Fiction", "Mystery", "Romance", "Sci-Fi"]

def authors : List String :=
  ["Samira Holt", "Eli Navarro", "Priya Kapoor", "Luca Moretti",
    "Noah Sterling", "Yuna Park"]

def firstNames : List String :=
  ["Ava", "Liam", "Maya", "Ethan", "Isla", "Noah", "Zoe", "Amir", "Nora", "Leo"]

def lastNames : List String :=
  ["Johnson", "Khan", "Patel", "Garcia", "Nguyen", "Smith", "Rossi", "Wright"]

def cities : List String :=
  ["Austin", "Seattle", "Denver", "Toronto", "Dublin", "Oslo", "Berlin", "Lisbon"]

def countries : List String :=
  ["USA", "Canada", "Ireland", "Norway", "Germany", "Portugal"]

/-- `pick`: `items[rng.Intn(len(items))]`, with `k` the draw's position in
the record's draw sequence. -/
def pick (rng : Rng) (k : Nat) (items : List String) : String :=
  items.getD (rng.intn k items.length % items.length) ""

/-- `randFloat`: `min + rng.Float64()*(max-min)` (float arithmetic modelled
over the rationals; no claim depends on its values). -/
def randFloat (rng : Rng) (k : Nat) (lo hi : Rat) : Rat :=
  lo + rng.float64 k * (hi - lo)

def makeMovie (rng : Rng) (now : String) (id : Nat) : Movie :=
  { id := id
    title := pick rng 0 movieTitles
    genre := pick rng 1 movieGenres
    year := rng.intn 2 45 % 45 + 1980
    director := pick rng 3 directors
    rating := randFloat rng 4 (11 / 2 : Rat) (49 / 5 : Rat)
    runtime := rng.intn 5 81 % 81 + 80
    createdAt := now }

def makeBook (rng : Rng) (now : String) (id : Nat) : Book :=
  { id := id
    title := pick rng 0 bookTitles
    author := pick rng 1 authors
    genre := pick rng 2 bookGenres
    year := rng.intn 3 60 % 60 + 1965
    pages := rng.intn 4 450 % 450 + 150
    rating := randFloat rng 5 (7 / 2 : Rat) (5 : Rat)
    createdAt := now }

def makePerson (rng : Rng) (now : String) (id : Nat) : Person :=
  let first := pick rng 0 firstNames
  let last := pick rng 1 lastNames
  { id := id
    firstName := first
    lastName := last
    email := (first ++ "." ++ last ++ "@example.com").toLower
    city := pick rng 2 cities
    country := pick rng 3 countries
    age := rng.intn 4 52 % 52 + 18
    createdAt := now }

inductive GenRecord where
  | movie : Movie → GenRecord
  | book : Book → GenRecord
  | person : Person → GenRecord
deriving DecidableEq

def recordId : GenRecord → Nat
  | .movie m => m.id
  | .book b => b.id
  | .person p => p.id

/-- The item sequence `writeJSONArray` serializes: `makeItem i` for
`i = 0 .. count-1`, in order. -/
def writeJSONArrayItems (count : Nat) (makeItem : Nat → GenRecord) :
    List GenRecord :=
  (List.range count).map makeItem

/-- The text `writeJSONArray` writes: an opening bracket line, the
marshalled items separated by `",\n"`, a closing bracket line.
`marshal` stands for the external `json.Marshal`. -/
def renderJSONArray (marshal : GenRecord → String) (items : List GenRecord) :
    String :=
  "[\n" ++ String.intercalate ",\n" (items.map marshal) ++ "\n]\n"

/-- The type dispatch of the generator's `main`: normalize the `-type`
flag (`strings.ToLower (strings.TrimSpace ...)`), reject unknown types,
otherwise produce the records with identifiers `i + 1`. -/
def generateItems (dataType : String) (rng : Rng) (now : String)
    (count : Nat) : Option (List GenRecord) :=
  let v := (goTrimSpace dataType).map Char.toLower
  if v = "movies".data then
    some (writeJSONArrayItems count (fun i => .movie (makeMovie rng now (i + 1))))
  else if v = "books".data then
    some (writeJSONArrayItems count (fun i => .book (makeBook rng now (i + 1))))
  else if v = "people".data then
    some (writeJSONArrayItems count (fun i => .person (makePerson rng now (i + 1))))
  else none

/-! ## Tool runs

Each tool's `main` is modelled as a pure function to `RunResult`.  The
`trace` lists the side-effecting steps in the order the Go code performs
them; `outputs` are the files written; a push failure is the last
possible failure and leaves `outputs` as the completed work produced
them. -/

inductive Event where
  | mkdirOut
  | listedInput
  | readDictFile
  | didWork
  | pushedMetrics
deriving DecidableEq

inductive ErrKind where
  | dictRequired
  | configError
  | listFailed
  | noFiles
  | dictReadFailed
  | collectFailed
  | trainFailed
  | unknownType
  | pushFailed
deriving DecidableEq

structure RunResult where
  trace : List Event
  outputs : List (Fpath × Bytes)
  exitCode : Nat
  err : Option ErrKind
deriving DecidableEq

/-- The common tail of every tool: push the metrics after the main work;
a failed push turns an otherwise completed run into exit code 1. -/
def finishRun (tr : List Event) (outs : List (Fpath × Bytes))
    (pushOk : Bool) : RunResult :=
  if pushOk then ⟨tr ++ [Event.pushedMetrics], outs, 0, none⟩
  else ⟨tr ++ [Event.pushedMetrics], outs, 1, some .pushFailed⟩

/-- `main` of cmd/compress: dict-flag validation, create the output
directory, list the input files, fail on an empty listing, read the
dictionary when requested, compress, push metrics.  `encF level dict` is
the external encoder built by `zstd.NewWriter` from the level and
dictionary options; `dictFile` is the content of the `-dict` path
(`none` models an unreadable dictionary file). -/
def compressMain (useDict : Bool) (dictPath : String) (dictFile : Option Bytes)
    (root : FsNode) (encF : Int → Bytes → Bytes → Bytes) (level : Int)
    (pushOk : Bool) : RunResult :=
  if useDict && (goTrimSpace dictPath).isEmpty then ⟨[], [], 1, some .dictRequired⟩
  else
    match sortedFilePairs root with
    | .error _ => ⟨[.mkdirOut, .listedInput], [], 1, some .listFailed⟩
    | .ok files =>
      if files.isEmpty then ⟨[.mkdirOut, .listedInput], [], 1, some .noFiles⟩
      else
        if useDict then
          match dictFile with
          | none => ⟨[.mkdirOut, .listedInput, .readDictFile], [], 1, some .dictReadFailed⟩
          | some d =>
            finishRun [.mkdirOut, .listedInput, .readDictFile, .didWork]
              (compressFiles (encF level d) files).1 pushOk
        else
          finishRun [.mkdirOut, .listedInput, .didWork]
            (compressFiles (encF level []) files).1 pushOk

/-- `main` of cmd/decompress: same shape as the compressor, with the
external decoder family `decF dict` (`zstd.NewReader` with the optional
dictionary) and no level flag. -/
def decompressMain (useDict : Bool) (dictPath : String) (dictFile : Option Bytes)
    (root : FsNode) (decF : Bytes → Bytes → Bytes) (pushOk : Bool) : RunResult :=
  if useDict && (goTrimSpace dictPath).isEmpty then ⟨[], [], 1, some .dictRequired⟩
  else
    match sortedFilePairs root with
    | .error _ => ⟨[.mkdirOut, .listedInput], [], 1, some .listFailed⟩
    | .ok files =>
      if files.isEmpty then ⟨[.mkdirOut, .listedInput], [], 1, some .noFiles⟩
      else
        if useDict then
          match dictFile with
          | none => ⟨[.mkdirOut, .listedInput, .readDictFile], [], 1, some .dictReadFailed⟩
          | some d =>
            finishRun [.mkdirOut, .listedInput, .readDictFile, .didWork]
              (decompressFiles (decF d) files).1 pushOk
        else
          finishRun [.mkdirOut, .listedInput, .didWork]
            (decompressFiles (decF []) files).1 pushOk

/-! ## Dictionary trainer (cmd/train-dict main.go) -/

inductive EncoderLevel where
  | fastest
  | default
  | better
  | best
deriving DecidableEq

/-- `parseZstdLevel`: the switch maps 1..4 to the four encoder speeds and
everything else to `SpeedBestCompression`. -/
def parseZstdLevel (level : Int) : EncoderLevel :=
  if level = 1 then .fastest
  else if level = 2 then .default
  else if level = 3 then .better
  else if level = 4 then .best
  else .best

/-- `dict.Options` as the trainer fills it: target size, `HashBytes: 6`,
and the zstd level only when the flag is positive. -/
structure TrainOptions where
  maxDictSize : Int
  hashBytes : Nat
  zstdLevel : Option EncoderLevel
deriving DecidableEq

/-- `main` of cmd/train-dict: validate the three numeric flags (note:
`-zstd-level` is not validated), create the output directory, collect
samples, train via the external `dict.BuildZstdDict` (`train`), write the
blob to `outputPath`, push metrics. -/
def trainDictMain (dictSize maxSamples maxSampleBytes zstdLevel : Int)
    (root : FsNode) (outputPath : Fpath)
    (train : List Bytes → TrainOptions → Except Unit Bytes)
    (pushOk : Bool) : RunResult :=
  if dictSize ≤ 0 then ⟨[], [], 1, some .configError⟩
  else if maxSamples ≤ 0 then ⟨[], [], 1, some .configError⟩
  else if maxSampleBytes ≤ 0 then ⟨[], [], 1, some .configError⟩
  else
    match collectSamples root maxSamples.toNat maxSampleBytes.toNat with
    | .error _ => ⟨[.mkdirOut, .listedInput], [], 1, some .collectFailed⟩
    | .ok (samples, _stats) =>
      let opts : TrainOptions :=
        ⟨dictSize, 6, if 0 < zstdLevel then some (parseZstdLevel zstdLevel) else none⟩
      match train samples opts with
      | .error _ => ⟨[.mkdirOut, .listedInput], [], 1, some .trainFailed⟩
      | .ok blob =>
        finishRun [.mkdirOut, .listedInput, .didWork] [(outputPath, blob)] pushOk

def strToBytes (s : String) : Bytes := s.data.map Char.toNat

/-- `main` of cmd/generate-data with resolved flags: reject an unknown
type before touching the filesystem, otherwise create the output
directory, generate and write the JSON array, push metrics.  Interactive
prompting for omitted flags is input resolution, not pipeline logic. -/
def generateMain (dataType : String) (count : Nat) (outFile : Fpath)
    (rng : Rng) (now : String) (marshal : GenRecord → String)
    (pushOk : Bool) : RunResult :=
  match generateItems dataType rng now count with
  | none => ⟨[], [], 1, some .unknownType⟩
  | some items =>
    finishRun [.mkdirOut, .didWork]
      [(outFile, strToBytes (renderJSONArray marshal items))] pushOk

/-! ## Helper lemmas: trimming -/

theorem length_dropWhile_le' (p : Nat → Bool) :
    ∀ l : Bytes, (l.dropWhile p).length ≤ l.length
  | [] => Nat.le_refl _
  | a :: as => by
    by_cases h : p a
    · simp only [List.dropWhile_cons, h, if_pos]
      exact Nat.le_succ_of_le (length_dropWhile_le' p as)
    · simp [List.dropWhile_cons, h]

theorem head?_dropWhile_not (p : Nat → Bool) :
    ∀ l : Bytes, ∀ b, (l.dropWhile p).head? = some b → p b = false
  | [], b => by simp
  | a :: as, b => by
    by_cases h : p a
    · simpa [List.dropWhile_cons, h] using head?_dropWhile_not p as b
    · intro hb
      rw [List.dropWhile_cons, if_neg (by simpa using h)] at hb
      simp only [List.head?_cons, Option.some.injEq] at hb
      subst hb
      simpa using h

theorem getLast?_dropWhile (p : Nat → Bool) :
    ∀ l : Bytes, l.dropWhile p ≠ [] → (l.dropWhile p).getLast? = l.getLast?
  | [], h => by simp at h
  | a :: as, h => by
    by_cases hp : p a
    · have has : as.dropWhile p ≠ [] := by
        simpa [List.dropWhile_cons, hp] using h
      have : as ≠ [] := by
        intro hnil
        exact has (by simp [hnil])
      have hcons : (a :: as).getLast? = as.getLast? := by
        cases as with
        | nil => exact absurd rfl this
        | cons b bs => simp [List.getLast?_cons]
      rw [List.dropWhile_cons]
      simp only [hp, if_pos]
      rw [getLast?_dropWhile p as has, hcons]
    · simp [List.dropWhile_cons, hp]

theorem bytesTrimSpace_length (l : Bytes) :
    (bytesTrimSpace l).length ≤ l.length := by
  unfold bytesTrimSpace
  calc ((l.dropWhile isTrimByte).reverse.dropWhile isTrimByte).reverse.length
      = ((l.dropWhile isTrimByte).reverse.dropWhile isTrimByte).length := by
        simp
    _ ≤ (l.dropWhile isTrimByte).reverse.length := length_dropWhile_le' _ _
    _ = (l.dropWhile isTrimByte).length := by simp
    _ ≤ l.length := length_dropWhile_le' _ _

theorem bytesTrimSpace_head (l : Bytes) (b : Nat)
    (h : (bytesTrimSpace l).head? = some b) : isTrimByte b = false := by
  unfold bytesTrimSpace at h
  set z := (l.dropWhile isTrimByte).reverse.dropWhile isTrimByte with hz
  have hzne : z ≠ [] := by
    intro hnil
    rw [hnil] at h
    simp at h
  have h1 : z.reverse.head? = z.getLast? := List.head?_reverse z
  rw [h1] at h
  have h2 : z.getLast? = (l.dropWhile isTrimByte).reverse.getLast? :=
    getLast?_dropWhile _ _ hzne
  rw [h2, List.getLast?_reverse] at h
  exact head?_dropWhile_not _ _ _ h

theorem bytesTrimSpace_getLast (l : Bytes) (b : Nat)
    (h : (bytesTrimSpace l).getLast? = some b) : isTrimByte b = false := by
  unfold bytesTrimSpace at h
  rw [List.getLast?_reverse] at h
  exact head?_dropWhile_not _ _ _ h

/-! ## Helper lemmas: chunked sample reading -/

theorem readGo_length_le (mb : Nat) :
    ∀ (fuel cap : Nat) (c : Bytes), (readGo mb fuel cap c).1.length ≤ cap
  | 0, cap, c => by simp [readGo]
  | fuel + 1, cap, c => by
    simp only [readGo]
    split_ifs with h0 hc hlt hde hde2
    · simp
    · simp
    · simp
    · simpa using Nat.one_le_iff_ne_zero.mpr h0
    · exact readGo_length_le mb fuel cap _
    · have ih := readGo_length_le mb fuel (cap - 1) (c.drop mb)
      have h1 : cap ≠ 0 := h0
      simp only [List.length_cons]
      omega

theorem readGo_mem (mb : Nat) :
    ∀ (fuel cap : Nat) (c s : Bytes), s ∈ (readGo mb fuel cap c).1 →
      ∃ chunk : Bytes,
        chunk.length ≤ mb ∧ s = bytesTrimSpace chunk ∧ s.isEmpty = false
  | 0, cap, c, s => by simp [readGo]
  | fuel + 1, cap, c, s => by
    simp only [readGo]
    split_ifs with h0 hc hlt hde hde2
    · simp
    · simp
    · simp
    · intro hs
      simp only [List.mem_singleton] at hs
      subst hs
      exact ⟨c, Nat.le_of_lt hlt, rfl, by simpa using hde⟩
    · exact readGo_mem mb fuel cap _ s
    · intro hs
      simp only [List.mem_cons] at hs
      rcases hs with hs | hs
      · subst hs
        refine ⟨c.take mb, ?_, rfl, by simpa using hde2⟩
        simp [Nat.min_le_left]
      · exact readGo_mem mb fuel (cap - 1) (c.drop mb) s hs

theorem readGo_eq_chunks (mb : Nat) (hmb : 1 ≤ mb) :
    ∀ (fuel : Nat) (c : Bytes) (cap : Nat), c.length ≤ fuel →
      (readGo mb fuel cap c).1 =
        (((chunksOf mb c).map bytesTrimSpace).filter (fun d => !d.isEmpty)).take cap
  | 0, c, cap, hlen => by
    have : c = [] := List.eq_nil_of_length_eq_zero (Nat.le_zero.mp hlen)
    subst this
    simp [readGo, chunksOf]
  | fuel + 1, c, cap, hlen => by
    simp only [readGo]
    split_ifs with h0 hc hlt hde hde2
    · subst h0
      simp
    · rw [List.isEmpty_iff] at hc
      subst hc
      simp [chunksOf]
    · -- final partial chunk trimmed to nothing: no sample
      cases c with
      | nil => simp at hc
      | cons a as =>
        rw [chunksOf]
        have hmb0 : mb ≠ 0 := by omega
        simp only [hmb0, dif_neg, not_false_iff]
        rw [List.take_of_length_le (Nat.le_of_lt hlt),
          List.drop_eq_nil_of_le (Nat.le_of_lt hlt), chunksOf]
        simp only [List.map_cons, List.map_nil, List.filter_cons, List.filter_nil]
        have hde' : (bytesTrimSpace (a :: as)).isEmpty = true := by simpa using hde
        simp [hde']
    · cases c with
      | nil => simp at hc
      | cons a as =>
        rw [chunksOf]
        have hmb0 : mb ≠ 0 := by omega
        simp only [hmb0, dif_neg, not_false_iff]
        rw [List.take_of_length_le (Nat.le_of_lt hlt),
          List.drop_eq_nil_of_le (Nat.le_of_lt hlt), chunksOf]
        simp only [List.map_cons, List.map_nil, List.filter_cons, List.filter_nil]
        have hde' : (bytesTrimSpace (a :: as)).isEmpty = false := by simpa using hde
        simp only [hde', Bool.not_false, if_pos]
        cases cap with
        | zero => exact absurd rfl h0
        | succ k => simp
    · -- full chunk trimmed to nothing: skip it
      cases c with
      | nil => simp at hc
      | cons a as =>
        rw [chunksOf]
        have hmb0 : mb ≠ 0 := by omega
        simp only [hmb0, dif_neg, not_false_iff]
        simp only [List.map_cons, List.filter_cons]
        have hde' : (bytesTrimSpace ((a :: as).take mb)).isEmpty = true := by
          simpa using hde2
        simp only [hde', Bool.not_true, if_neg, Bool.false_eq_true, not_false_iff]
        have hrest : ((a :: as).drop mb).length ≤ fuel := by
          simp only [List.length_drop, List.length_cons]
          simp only [List.length_cons] at hlen
          omega
        exact readGo_eq_chunks mb hmb fuel _ cap hrest
    · cases c with
      | nil => simp at hc
      | cons a as =>
        rw [chunksOf]
        have hmb0 : mb ≠ 0 := by omega
        simp only [hmb0, dif_neg, not_false_iff]
        simp only [List.map_cons, List.filter_cons]
        have hde' : (bytesTrimSpace ((a :: as).take mb)).isEmpty = false := by
          simpa using hde2
        simp only [hde', Bool.not_false, if_pos]
        cases cap with
        | zero => exact absurd rfl h0
        | succ k =>
          have hrest : ((a :: as).drop mb).length ≤ fuel := by
            simp only [List.length_drop, List.length_cons]
            simp only [List.length_cons] at hlen
            omega
          have ih := readGo_eq_chunks mb hmb fuel ((a :: as).drop mb) k hrest
          simp only [List.take_succ_cons]
          rw [← ih]
          simp

/-! ## Helper lemmas: the collection loop -/

theorem collectLoop_length_le (m mb : Nat) :
    ∀ (files : List (Fpath × Bytes)) (samples : List Bytes) (stats : SampleStats),
      samples.length ≤ m → (collectLoop m mb files samples stats).1.length ≤ m
  | [], _, _, h => h
  | f :: rest, samples, stats, h => by
    simp only [collectLoop]
    split_ifs with hcap hemp
    · exact h
    · exact collectLoop_length_le m mb rest samples stats h
    · refine collectLoop_length_le m mb rest _ _ ?_
      have hr := readGo_length_le mb f.2.length (m - samples.length) f.2
      simp only [List.length_append]
      simp only [readSamplesFromFile] at *
      omega

theorem collectLoop_mem (m mb : Nat) :
    ∀ (files : List (Fpath × Bytes)) (samples : List Bytes) (stats : SampleStats)
      (s : Bytes), s ∈ (collectLoop m mb files samples stats).1 →
      s ∈ samples ∨
        ∃ chunk : Bytes,
          chunk.length ≤ mb ∧ s = bytesTrimSpace chunk ∧ s.isEmpty = false
  | [], samples, _, s, h => Or.inl h
  | f :: rest, samples, stats, s, h => by
    simp only [collectLoop] at h
    split_ifs at h with hcap hemp
    · exact Or.inl h
    · exact collectLoop_mem m mb rest samples stats s h
    · rcases collectLoop_mem m mb rest _ _ s h with hin | hex
      · rcases List.mem_append.mp hin with hin | hin
        · exact Or.inl hin
        · exact Or.inr (readGo_mem mb f.2.length (m - samples.length) f.2 s hin)
      · exact Or.inr hex

/-! ## Helper lemmas: output-path derivation -/

theorem goTrimSuffix_append (p : Fpath) (suf : Fpath) :
    goTrimSuffix (p ++ suf) suf = p := by
  have hsuf : suf.isSuffixOf (p ++ suf) = true := by simp [List.isSuffixOf]
  rw [goTrimSuffix, if_pos hsuf, List.length_append]
  have : p.length + suf.length - suf.length = p.length := by omega
  rw [this]
  exact List.take_left p suf

theorem decompOutRel_zst (p : Fpath) : decompOutRel (p ++ zstExt) = p := by
  rw [decompOutRel]
  have h1 : goTrimSuffix (p ++ zstExt) zstExt = p := goTrimSuffix_append p zstExt
  rw [h1]
  have hne : p ≠ p ++ zstExt := by
    intro h
    have := congrArg List.length h
    simp [zstExt] at this
  rw [if_neg hne]

theorem decompOutRel_no_zst (rel : Fpath) (h : zstExt.isSuffixOf rel = false) :
    decompOutRel rel = rel ++ outExt := by
  have hns : ¬ (List.isSuffixOf zstExt rel = true) := by
    rw [h]
    exact Bool.false_ne_true
  rw [decompOutRel, goTrimSuffix, if_neg hns, if_pos rfl]

theorem decompressFiles_map_fst (decode : Bytes → Bytes) :
    ∀ files : List (Fpath × Bytes),
      ((decompressFiles decode files).1).map Prod.fst =
        files.map (fun f => decompOutRel f.1)
  | [] => rfl
  | (p, c) :: rest => by
    simp only [decompressFiles, List.map_cons]
    rw [decompressFiles_map_fst decode rest]

/-! ## Concrete fixtures used to exercise the theorems -/

def twoFilesTree : FsNode :=
  .dir ['i'] (.cons (.file ['a'] [97]) (.cons (.file ['b'] [98]) .nil))

def wRng : Rng := ⟨fun _ _ => 0, fun _ => 0⟩

/-! ## Claim C1 -/

/-- C1: for every file list and every dictionary configuration (no
dictionary is the empty `dictBytes`, otherwise the same dictionary bytes
are handed to both sides), running `compressFiles` and then
`decompressFiles` on its outputs reproduces the original relative paths
and bytes exactly.  The hypothesis is the round-trip contract of the
external zstd codec (`encF`/`decF` are the encoder/decoder families the
two tools build for a given dictionary), which the spec places out of
scope. -/
theorem compress_then_decompress_roundtrip
    (encF decF : Bytes → Bytes → Bytes) (dictBytes : Bytes)
    (files : List (Fpath × Bytes))
    (hcodec : ∀ d b, decF d (encF d b) = b) :
    (decompressFiles (decF dictBytes)
      (compressFiles (encF dictBytes) files).1).1 = files := by
  induction files with
  | nil => rfl
  | cons f rest ih =>
    obtain ⟨p, c⟩ := f
    simp only [compressFiles, decompressFiles]
    rw [decompOutRel_zst, hcodec dictBytes c, ih]

/-- C1 witness: a concrete two-file batch with the identity codec. -/
theorem compress_then_decompress_roundtrip_witness :
    (decompressFiles ((fun _ b => b : Bytes → Bytes → Bytes) [])
      (compressFiles ((fun _ b => b : Bytes → Bytes → Bytes) [])
        [(['a'], [0, 1, 2]), (['b'], [255])]).1).1 =
      [(['a'], [0, 1, 2]), (['b'], [255])] :=
  compress_then_decompress_roundtrip (fun _ b => b) (fun _ b => b) []
    [(['a'], [0, 1, 2]), (['b'], [255])] (fun _ _ => rfl)

/-! ## Claim C6 -/

/-- C6: the decompressor derives each output path by stripping the
`".zst"` suffix from the input-root-relative path; exactly when the path
does not end in `".zst"` it appends `".out"` instead, and
`decompressFiles` still processes every such file (no error is reported:
the path of every input file is mapped through the same derivation). -/
theorem decompress_output_path :
    (∀ p : Fpath, decompOutRel (p ++ zstExt) = p) ∧
    (∀ rel : Fpath, zstExt.isSuffixOf rel = false →
      decompOutRel rel = rel ++ outExt) ∧
    (∀ (decode : Bytes → Bytes) (files : List (Fpath × Bytes)),
      ((decompressFiles decode files).1).map Prod.fst =
        files.map (fun f => decompOutRel f.1)) :=
  ⟨decompOutRel_zst, decompOutRel_no_zst, decompressFiles_map_fst⟩

/-- C6 witness: strip `".zst"` from `"a.zst"`, append `".out"` to `"b"`,
and map a mixed two-file batch through the decompressor. -/
theorem decompress_output_path_witness :
    decompOutRel (['a'] ++ zstExt) = ['a'] ∧
    decompOutRel ['b'] = ['b'] ++ outExt ∧
    ((decompressFiles (fun b => b)
        [(['a', '.', 'z', 's', 't'], [7]), (['b'], [8])]).1).map Prod.fst =
      [(['a', '.', 'z', 's', 't'], [7]), (['b'], [8])].map
        (fun f => decompOutRel f.1) :=
  ⟨decompress_output_path.1 ['a'],
    decompress_output_path.2.1 ['b'] (by decide),
    decompress_output_path.2.2 (fun b => b)
      [(['a', '.', 'z', 's', 't'], [7]), (['b'], [8])]⟩

/-! ## Claim C2 -/

theorem collectSamples_ok_inv (root : FsNode) (m mb : Nat)
    (samples : List Bytes) (stats : SampleStats)
    (h : collectSamples root m mb = .ok (samples, stats)) :
    ∃ files, sortedFilePairs root = .ok files ∧
      samples = (collectLoop m mb files [] sampleStatsInit).1 ∧
      2 ≤ samples.length := by
  unfold collectSamples at h
  cases hsp : sortedFilePairs root with
  | error u => rw [hsp] at h; exact absurd h (by simp)
  | ok files =>
    rw [hsp] at h
    dsimp only at h
    by_cases hemp : files.isEmpty
    · rw [if_pos hemp] at h; exact absurd h (by simp)
    · rw [if_neg hemp] at h
      by_cases hlen : (collectLoop m mb files [] sampleStatsInit).1.length < 2
      · rw [if_pos hlen] at h; exact absurd h (by simp)
      · rw [if_neg hlen] at h
        have heq := Except.ok.inj h
        refine ⟨files, rfl, ?_, ?_⟩
        · rw [heq]
        · rw [heq] at hlen
          simp only [not_lt] at hlen
          exact hlen

/-- A run on which the C2 claim fails: the file `"/i/a"` holds the bytes
`0x0B 'x'` (a vertical tab followed by `'x'`); with `-max-sample-bytes 1`
the two chunks trim to themselves, `collectSamples` succeeds, and its
first returned sample is the single byte `0x0B`. -/
def vtTree : FsNode := .dir ['i'] (.cons (.file ['a'] [11, 120]) .nil)

/-- C2 counterexample: `collectSamples` returns a sample whose first (and
only) byte is the vertical tab `0x0B` — a whitespace byte — so not every
returned sample is free of leading/trailing whitespace.  (`bytesTrimSpace`
trims only space, LF, CR and HT.) -/
theorem collectSamples_whitespace_cex :
    collectSamples vtTree 1000 1 = .ok ([[11], [120]], ⟨1, 2, 2⟩) ∧
    ([11] : Bytes).head? = some 11 ∧ isAsciiSpaceByte 11 = true :=
  ⟨rfl, rfl, rfl⟩

/-- C2 (amended): every sample returned by `collectSamples` is non-empty
and neither starts nor ends with one of the four bytes `bytesTrimSpace`
actually trims (space, LF, CR, HT); the whitespace bytes VT and FF may
survive at either end. -/
theorem collectSamples_trimmed (root : FsNode) (m mb : Nat)
    (samples : List Bytes) (stats : SampleStats)
    (h : collectSamples root m mb = .ok (samples, stats)) :
    ∀ s ∈ samples, s ≠ [] ∧
      (∀ b, s.head? = some b → isTrimByte b = false) ∧
      (∀ b, s.getLast? = some b → isTrimByte b = false) := by
  obtain ⟨files, _, hsam, _⟩ := collectSamples_ok_inv root m mb samples stats h
  intro s hs
  rw [hsam] at hs
  rcases collectLoop_mem m mb files [] sampleStatsInit s hs with hin | hex
  · exact absurd hin (List.not_mem_nil s)
  · obtain ⟨chunk, _, hchunk, hne⟩ := hex
    subst hchunk
    refine ⟨by simpa using hne, ?_, ?_⟩
    · exact bytesTrimSpace_head chunk
    · exact bytesTrimSpace_getLast chunk

/-- C2 witness: the sample `[97]` of a successful concrete run is
non-empty and trimmed on both ends. -/
theorem collectSamples_trimmed_witness :
    ([97] : Bytes) ≠ [] ∧
      (∀ b, ([97] : Bytes).head? = some b → isTrimByte b = false) ∧
      (∀ b, ([97] : Bytes).getLast? = some b → isTrimByte b = false) :=
  collectSamples_trimmed twoFilesTree 1000 64 [[97], [98]] ⟨2, 2, 2⟩ rfl
    [97] (by simp)

/-! ## Claim C3 -/

theorem collectSamples_err_of_few (root : FsNode) (m mb : Nat)
    (hfew : (collectedSamples root m mb).length < 2) :
    ∃ e, collectSamples root m mb = .error e := by
  unfold collectedSamples at hfew
  unfold collectSamples
  cases hsp : sortedFilePairs root with
  | error u => exact ⟨.ioErr, rfl⟩
  | ok files =>
    rw [hsp] at hfew
    dsimp only
    by_cases hemp : files.isEmpty
    · exact ⟨.noFiles, by rw [if_pos hemp]⟩
    · refine ⟨.notEnough, ?_⟩
      rw [if_neg hemp, if_pos hfew]

/-- C3: whenever the collection loop gathers fewer than two samples,
`collectSamples` returns an error (an I/O error, "no files found", or
"not enough samples"), the trainer run stops before any training with
exit code 1 and writes no dictionary, and the outcome is the same for
every (valid, positive) requested dictionary size — `collectSamples`
never even sees the `-dict-size` flag. -/
theorem collectSamples_too_few (root : FsNode) (m mb : Nat)
    (hfew : (collectedSamples root m mb).length < 2) :
    (∃ e, collectSamples root m mb = .error e) ∧
    ∀ (ds ds' ms mbs lvl : Int) (op : Fpath)
      (train : List Bytes → TrainOptions → Except Unit Bytes) (pushOk : Bool),
      0 < ds → 0 < ds' → 0 < ms → 0 < mbs →
      m = ms.toNat → mb = mbs.toNat →
      trainDictMain ds ms mbs lvl root op train pushOk =
        ⟨[.mkdirOut, .listedInput], [], 1, some .collectFailed⟩ ∧
      trainDictMain ds ms mbs lvl root op train pushOk =
        trainDictMain ds' ms mbs lvl root op train pushOk := by
  refine ⟨collectSamples_err_of_few root m mb hfew, ?_⟩
  intro ds ds' ms mbs lvl op train pushOk hds hds' hms hmbs hm hmb
  obtain ⟨e, he⟩ := collectSamples_err_of_few root m mb hfew
  rw [hm, hmb] at he
  have hrun : ∀ d : Int, 0 < d →
      trainDictMain d ms mbs lvl root op train pushOk =
        ⟨[.mkdirOut, .listedInput], [], 1, some .collectFailed⟩ := by
    intro d hd
    unfold trainDictMain
    rw [if_neg (by omega), if_neg (by omega), if_neg (by omega), he]
  exact ⟨hrun ds hds, by rw [hrun ds hds, hrun ds' hds']⟩

/-- The empty input directory used to exercise C3. -/
def emptyDirTree : FsNode := .dir ['i'] .nil

/-- C3 witness: an empty input directory yields zero samples; training
fails identically for dictionary sizes 7 and 9. -/
theorem collectSamples_too_few_witness :
    (∃ e, collectSamples emptyDirTree 5 3 = .error e) ∧
      trainDictMain 7 5 3 2 emptyDirTree ['d'] (fun _ _ => .ok [0]) true =
        ⟨[.mkdirOut, .listedInput], [], 1, some .collectFailed⟩ ∧
      trainDictMain 7 5 3 2 emptyDirTree ['d'] (fun _ _ => .ok [0]) true =
        trainDictMain 9 5 3 2 emptyDirTree ['d'] (fun _ _ => .ok [0]) true := by
  have h := collectSamples_too_few emptyDirTree 5 3 (by decide)
  have h2 := h.2 7 9 5 3 2 ['d'] (fun _ _ => .ok [0]) true
    (by decide) (by decide) (by decide) (by decide) rfl rfl
  exact ⟨h.1, h2.1, h2.2⟩

/-! ## Claim C7 -/

/-- C7: a successful `collectSamples` run returns at most `maxSamples`
samples in total across all files, each at most `maxSampleBytes` bytes
long; and per file, `readSamplesFromFile` produces exactly the trimmed
non-empty chunks of the sequential fixed-size chunking of the file,
truncated at the remaining global cap (so reading proceeds chunk by
chunk until the file is exhausted or the cap is reached). -/
theorem collectSamples_caps :
    (∀ (root : FsNode) (m mb : Nat) (samples : List Bytes)
      (stats : SampleStats), collectSamples root m mb = .ok (samples, stats) →
      samples.length ≤ m ∧ ∀ s ∈ samples, s.length ≤ mb) ∧
    (∀ mb : Nat, 1 ≤ mb → ∀ (cap : Nat) (c : Bytes),
      (readSamplesFromFile mb cap c).1 =
        (((chunksOf mb c).map bytesTrimSpace).filter
          (fun d => !d.isEmpty)).take cap) := by
  constructor
  · intro root m mb samples stats h
    obtain ⟨files, _, hsam, _⟩ := collectSamples_ok_inv root m mb samples stats h
    constructor
    · rw [hsam]
      exact collectLoop_length_le m mb files [] sampleStatsInit (by simp)
    · intro s hs
      rw [hsam] at hs
      rcases collectLoop_mem m mb files [] sampleStatsInit s hs with hin | hex
      · exact absurd hin (List.not_mem_nil s)
      · obtain ⟨chunk, hlen, hchunk, _⟩ := hex
        rw [hchunk]
        exact Nat.le_trans (bytesTrimSpace_length chunk) hlen
  · intro mb hmb cap c
    exact readGo_eq_chunks mb hmb c.length c cap (Nat.le_refl _)

/-- C7 witness: a concrete successful run obeys both caps, and a
five-byte file chunked at 2 bytes yields its sequential chunks. -/
theorem collectSamples_caps_witness :
    ([[97], [98]] : List Bytes).length ≤ 1000 ∧
      (∀ s ∈ ([[97], [98]] : List Bytes), s.length ≤ 64) ∧
      (readSamplesFromFile 2 10 [97, 98, 99, 32, 100]).1 =
        (((chunksOf 2 [97, 98, 99, 32, 100]).map bytesTrimSpace).filter
          (fun d => !d.isEmpty)).take 10 := by
  have h1 := collectSamples_caps.1 twoFilesTree 1000 64 [[97], [98]] ⟨2, 2, 2⟩ rfl
  exact ⟨h1.1, h1.2, collectSamples_caps.2 2 (by decide) 10 [97, 98, 99, 32, 100]⟩

/-! ## Claim C4 -/

/-- C4: for every resolved record type the generator accepts, the JSON
array receives exactly the requested number of records, and the `i`-th
record's identifier is `i + 1` — identifiers are the sequence
`1, 2, ..., n`, unique and sequential, for every state of the
pseudo-random generator and every timestamp. -/
theorem generator_ids_sequential (dataType : String) (rng : Rng)
    (now : String) (n : Nat) (items : List GenRecord)
    (h : generateItems dataType rng now n = some items) :
    items.length = n ∧ items.map recordId = (List.range n).map (· + 1) := by
  unfold generateItems at h
  dsimp only at h
  split_ifs at h <;>
    · rw [Option.some.injEq] at h
      subst h
      refine ⟨by simp [writeJSONArrayItems], ?_⟩
      simp only [writeJSONArrayItems, List.map_map, Function.comp_def]
      refine List.map_congr_left ?_
      intro a _
      rfl

/-- C4 witness: three "movies" records carry identifiers 1, 2, 3. -/
theorem generator_ids_sequential_witness :
    (writeJSONArrayItems 3 (fun i => .movie (makeMovie wRng "" (i + 1)))).length
        = 3 ∧
      (writeJSONArrayItems 3
          (fun i => .movie (makeMovie wRng "" (i + 1)))).map recordId =
        (List.range 3).map (· + 1) :=
  generator_ids_sequential "movies" wRng "" 3
    (writeJSONArrayItems 3 (fun i => .movie (makeMovie wRng "" (i + 1)))) rfl

/-! ## Claim C5 -/

/-- C5: `listFiles` returns exactly the paths of the regular, non-empty
files beneath the root — a list that is lexicographically sorted and a
permutation of the non-empty entries of the file collector — and fails
with an I/O error when the root is unreadable; for a tree whose regular
files are all empty it returns the empty list, upon which both the
compressor and the decompressor exit with code 1 reporting "no files
found". -/
theorem listFiles_contract (root : FsNode) :
    (∀ l, listFilesT root = .ok l →
      l.Sorted pathRel ∧
      l.Perm (((allFilesNode [] root).filter (fun f => !f.2.isEmpty)).map (·.1))) ∧
    (readableNode root = false → listFilesT root = .error ()) ∧
    (readableNode root = true →
      (∀ f ∈ allFilesNode [] root, f.2 = ([] : Bytes)) →
      listFilesT root = .ok [] ∧
      (∀ (dictPath : String) (dictFile : Option Bytes)
        (encF : Int → Bytes → Bytes → Bytes) (level : Int) (pushOk : Bool),
        compressMain false dictPath dictFile root encF level pushOk =
          ⟨[.mkdirOut, .listedInput], [], 1, some .noFiles⟩) ∧
      (∀ (dictPath : String) (dictFile : Option Bytes)
        (decF : Bytes → Bytes → Bytes) (pushOk : Bool),
        decompressMain false dictPath dictFile root decF pushOk =
          ⟨[.mkdirOut, .listedInput], [], 1, some .noFiles⟩)) := by
  have hw := walkNode_eq [] root
  refine ⟨?_, ?_, ?_⟩
  · intro l hl
    unfold listFilesT at hl
    by_cases hr : readableNode root
    · rw [hw, if_pos hr] at hl
      dsimp only at hl
      have heq := Except.ok.inj hl
      rw [← heq]
      exact ⟨List.sorted_insertionSort pathRel _, List.perm_insertionSort pathRel _⟩
    · rw [hw, if_neg hr] at hl
      exact absurd hl (by simp)
  · intro hr
    unfold listFilesT
    rw [hw, if_neg (by simp [hr])]
  · intro hr hall
    have hfil : (allFilesNode [] root).filter (fun f => !f.2.isEmpty) = [] := by
      rw [List.filter_eq_nil_iff]
      intro f hf
      simp [hall f hf]
    have hok : listFilesT root = .ok [] := by
      unfold listFilesT
      rw [hw, if_pos hr, hfil]
      rfl
    have hsp : sortedFilePairs root = .ok [] := by
      unfold sortedFilePairs
      rw [hok]
      rfl
    refine ⟨hok, ?_, ?_⟩
    · intro dictPath dictFile encF level pushOk
      simp [compressMain, hsp]
    · intro dictPath dictFile decF pushOk
      simp [decompressMain, hsp]

/-- An input tree with one empty regular file and an unreadable root, to
exercise C5. -/
def emptyFileTree : FsNode := .dir ['i'] (.cons (.file ['a'] []) .nil)

/-- C5 witness: the two-file tree lists sorted and complete; an
unreadable root is an I/O error; the tree with only an empty file lists
nothing and both tools report "no files found" with exit code 1. -/
theorem listFiles_contract_witness :
    (([['/', 'i', '/', 'a'], ['/', 'i', '/', 'b']] : List Fpath).Sorted pathRel ∧
      ([['/', 'i', '/', 'a'], ['/', 'i', '/', 'b']] : List Fpath).Perm
        (((allFilesNode [] twoFilesTree).filter
          (fun f => !f.2.isEmpty)).map (·.1))) ∧
    listFilesT (.unreadable ['x']) = .error () ∧
    listFilesT emptyFileTree = .ok [] ∧
    compressMain false "" none emptyFileTree (fun _ _ b => b) 0 true =
      ⟨[.mkdirOut, .listedInput], [], 1, some .noFiles⟩ ∧
    decompressMain false "" none emptyFileTree (fun _ b => b) true =
      ⟨[.mkdirOut, .listedInput], [], 1, some .noFiles⟩ := by
  have h1 := (listFiles_contract twoFilesTree).1
    [['/', 'i', '/', 'a'], ['/', 'i', '/', 'b']] rfl
  have h2 := (listFiles_contract (.unreadable ['x'])).2.1 rfl
  have h3 := (listFiles_contract emptyFileTree).2.2 rfl (by decide)
  exact ⟨h1, h2, h3.1, h3.2.1 "" none (fun _ _ b => b) 0 true,
    h3.2.2 "" none (fun _ b => b) true⟩

/-! ## Claim C8 -/

/-- C8 counterexample: with `-zstd-level 5` — outside the documented
range 1..4 — and otherwise valid flags, the trainer does **not** report a
configuration error: the run trains, writes the dictionary and exits 0.
The claimed validation of `-zstd-level` does not exist in the code. -/
theorem trainDict_level_unchecked_cex :
    trainDictMain 1024 1000 64 5 twoFilesTree ['d'] (fun _ _ => .ok [0]) true =
      ⟨[.mkdirOut, .listedInput, .didWork, .pushedMetrics],
        [(['d'], [0])], 0, none⟩ ∧
    ¬ (1 ≤ (5 : Int) ∧ (5 : Int) ≤ 4) :=
  ⟨rfl, by decide⟩

/-- C8 (amended): the trainer exits with a configuration error, before
any work, exactly for non-positive `-dict-size`, `-max-samples` or
`-max-sample-bytes`; `-zstd-level` is never validated — with the three
numeric flags positive no configuration error is possible for any level,
and any level above 4 is silently mapped to `SpeedBestCompression` by
`parseZstdLevel`. -/
theorem trainDict_flag_validation (ds ms mbs lvl : Int) (root : FsNode)
    (op : Fpath) (train : List Bytes → TrainOptions → Except Unit Bytes)
    (pushOk : Bool) :
    ((ds ≤ 0 ∨ ms ≤ 0 ∨ mbs ≤ 0) →
      trainDictMain ds ms mbs lvl root op train pushOk =
        ⟨[], [], 1, some .configError⟩) ∧
    (4 < lvl → parseZstdLevel lvl = .best) ∧
    (0 < ds → 0 < ms → 0 < mbs →
      (trainDictMain ds ms mbs lvl root op train pushOk).err ≠
        some .configError) := by
  refine ⟨?_, ?_, ?_⟩
  · intro h
    unfold trainDictMain
    split_ifs with h1 h2 h3 <;> first | rfl | (exfalso; omega)
  · intro h4
    unfold parseZstdLevel
    rw [if_neg (by omega), if_neg (by omega), if_neg (by omega),
      if_neg (by omega)]
  · intro hds hms hmbs
    unfold trainDictMain
    rw [if_neg (by omega), if_neg (by omega), if_neg (by omega)]
    split
    · simp
    · split
      all_goals
        dsimp only
        split
        · simp
        · unfold finishRun
          split_ifs <;> simp

/-- C8 witness: a negative `-dict-size` is rejected before any work;
level 9 maps to best compression; with valid numeric flags level 9 does
not produce a configuration error. -/
theorem trainDict_flag_validation_witness :
    trainDictMain (-1) 10 10 2 twoFilesTree ['d'] (fun _ _ => .ok [0]) true =
      ⟨[], [], 1, some .configError⟩ ∧
    parseZstdLevel 9 = .best ∧
    (trainDictMain 1024 1000 64 9 twoFilesTree ['d'] (fun _ _ => .ok [0])
        true).err ≠ some .configError := by
  refine ⟨?_, ?_, ?_⟩
  · exact (trainDict_flag_validation (-1) 10 10 2 twoFilesTree ['d']
      (fun _ _ => .ok [0]) true).1 (Or.inl (by decide))
  · exact (trainDict_flag_validation 1024 1000 64 9 twoFilesTree ['d']
      (fun _ _ => .ok [0]) true).2.1 (by decide)
  · exact (trainDict_flag_validation 1024 1000 64 9 twoFilesTree ['d']
      (fun _ _ => .ok [0]) true).2.2 (by decide) (by decide) (by decide)

/-! ## Claim C9 -/

/-- The temporal discipline the spec ascribes to every tool, stated of a
run as a function of whether the metrics push succeeds: the files written
do not depend on the push outcome; whenever a push happens it is the last
step, immediately after the completed main work; and a failed push makes
the process exit non-zero. -/
def pushDiscipline (f : Bool → RunResult) : Prop :=
  (f false).outputs = (f true).outputs ∧
  (∀ b, Event.pushedMetrics ∈ (f b).trace →
    ∃ pre, (f b).trace = pre ++ [Event.didWork, Event.pushedMetrics]) ∧
  (Event.pushedMetrics ∈ (f false).trace → (f false).exitCode = 1)

theorem pushDiscipline_const (r : RunResult)
    (hr : Event.pushedMetrics ∉ r.trace) : pushDiscipline (fun _ => r) :=
  ⟨rfl, fun _ hb => absurd hb hr, fun hb => absurd hb hr⟩

theorem pushDiscipline_finish (tr : List Event) (outs : List (Fpath × Bytes))
    (pre : List Event) (htr : tr = pre ++ [Event.didWork]) :
    pushDiscipline (finishRun tr outs) := by
  unfold pushDiscipline finishRun
  refine ⟨by simp, ?_, ?_⟩
  · intro b _
    refine ⟨pre, ?_⟩
    cases b <;> simp [htr]
  · intro _
    simp

theorem compress_pushDiscipline (u : Bool) (dp : String) (df : Option Bytes)
    (root : FsNode) (encF : Int → Bytes → Bytes → Bytes) (lvl : Int) :
    pushDiscipline (compressMain u dp df root encF lvl) := by
  by_cases h1 : (u && (goTrimSpace dp).isEmpty) = true
  · have hfun : compressMain u dp df root encF lvl =
        fun _ => ⟨[], [], 1, some .dictRequired⟩ := by
      funext b
      unfold compressMain
      rw [if_pos h1]
    rw [hfun]
    exact pushDiscipline_const _ (by simp)
  · cases hsp : sortedFilePairs root with
    | error e =>
      have hfun : compressMain u dp df root encF lvl =
          fun _ => ⟨[.mkdirOut, .listedInput], [], 1, some .listFailed⟩ := by
        funext b
        unfold compressMain
        rw [if_neg h1, hsp]
      rw [hfun]
      exact pushDiscipline_const _ (by simp)
    | ok files =>
      by_cases hemp : files.isEmpty
      · have hfun : compressMain u dp df root encF lvl =
            fun _ => ⟨[.mkdirOut, .listedInput], [], 1, some .noFiles⟩ := by
          funext b
          unfold compressMain
          rw [if_neg h1, hsp]
          dsimp only
          rw [if_pos hemp]
        rw [hfun]
        exact pushDiscipline_const _ (by simp)
      · by_cases hu : u = true
        · cases df with
          | none =>
            have hfun : compressMain u dp none root encF lvl = fun _ =>
                ⟨[.mkdirOut, .listedInput, .readDictFile], [], 1,
                  some .dictReadFailed⟩ := by
              funext b
              unfold compressMain
              rw [if_neg h1, hsp]
              dsimp only
              rw [if_neg hemp, if_pos hu]
            rw [hfun]
            exact pushDiscipline_const _ (by simp)
          | some d =>
            have hfun : compressMain u dp (some d) root encF lvl =
                finishRun [.mkdirOut, .listedInput, .readDictFile, .didWork]
                  (compressFiles (encF lvl d) files).1 := by
              funext b
              unfold compressMain
              rw [if_neg h1, hsp]
              dsimp only
              rw [if_neg hemp, if_pos hu]
            rw [hfun]
            exact pushDiscipline_finish _ _
              [.mkdirOut, .listedInput, .readDictFile] rfl
        · have hfun : compressMain u dp df root encF lvl =
              finishRun [.mkdirOut, .listedInput, .didWork]
                (compressFiles (encF lvl []) files).1 := by
            funext b
            unfold compressMain
            rw [if_neg h1, hsp]
            dsimp only
            rw [if_neg hemp, if_neg hu]
          rw [hfun]
          exact pushDiscipline_finish _ _ [.mkdirOut, .listedInput] rfl

theorem decompress_pushDiscipline (u : Bool) (dp : String) (df : Option Bytes)
    (root : FsNode) (decF : Bytes → Bytes → Bytes) :
    pushDiscipline (decompressMain u dp df root decF) := by
  by_cases h1 : (u && (goTrimSpace dp).isEmpty) = true
  · have hfun : decompressMain u dp df root decF =
        fun _ => ⟨[], [], 1, some .dictRequired⟩ := by
      funext b
      unfold decompressMain
      rw [if_pos h1]
    rw [hfun]
    exact pushDiscipline_const _ (by simp)
  · cases hsp : sortedFilePairs root with
    | error e =>
      have hfun : decompressMain u dp df root decF =
          fun _ => ⟨[.mkdirOut, .listedInput], [], 1, some .listFailed⟩ := by
        funext b
        unfold decompressMain
        rw [if_neg h1, hsp]
      rw [hfun]
      exact pushDiscipline_const _ (by simp)
    | ok files =>
      by_cases hemp : files.isEmpty
      · have hfun : decompressMain u dp df root decF =
            fun _ => ⟨[.mkdirOut, .listedInput], [], 1, some .noFiles⟩ := by
          funext b
          unfold decompressMain
          rw [if_neg h1, hsp]
          dsimp only
          rw [if_pos hemp]
        rw [hfun]
        exact pushDiscipline_const _ (by simp)
      · by_cases hu : u = true
        · cases df with
          | none =>
            have hfun : decompressMain u dp none root decF = fun _ =>
                ⟨[.mkdirOut, .listedInput, .readDictFile], [], 1,
                  some .dictReadFailed⟩ := by
              funext b
              unfold decompressMain
              rw [if_neg h1, hsp]
              dsimp only
              rw [if_neg hemp, if_pos hu]
            rw [hfun]
            exact pushDiscipline_const _ (by simp)
          | some d =>
            have hfun : decompressMain u dp (some d) root decF =
                finishRun [.mkdirOut, .listedInput, .readDictFile, .didWork]
                  (decompressFiles (decF d) files).1 := by
              funext b
              unfold decompressMain
              rw [if_neg h1, hsp]
              dsimp only
              rw [if_neg hemp, if_pos hu]
            rw [hfun]
            exact pushDiscipline_finish _ _
              [.mkdirOut, .listedInput, .readDictFile] rfl
        · have hfun : decompressMain u dp df root decF =
              finishRun [.mkdirOut, .listedInput, .didWork]
                (decompressFiles (decF []) files).1 := by
            funext b
            unfold decompressMain
            rw [if_neg h1, hsp]
            dsimp only
            rw [if_neg hemp, if_neg hu]
          rw [hfun]
          exact pushDiscipline_finish _ _ [.mkdirOut, .listedInput] rfl

theorem trainDict_pushDiscipline (ds ms mbs lvl : Int) (root : FsNode)
    (op : Fpath) (train : List Bytes → TrainOptions → Except Unit Bytes) :
    pushDiscipline (trainDictMain ds ms mbs lvl root op train) := by
  by_cases h1 : ds ≤ 0
  · have hfun : trainDictMain ds ms mbs lvl root op train =
        fun _ => ⟨[], [], 1, some .configError⟩ := by
      funext b
      unfold trainDictMain
      rw [if_pos h1]
    rw [hfun]
    exact pushDiscipline_const _ (by simp)
  · by_cases h2 : ms ≤ 0
    · have hfun : trainDictMain ds ms mbs lvl root op train =
          fun _ => ⟨[], [], 1, some .configError⟩ := by
        funext b
        unfold trainDictMain
        rw [if_neg h1, if_pos h2]
      rw [hfun]
      exact pushDiscipline_const _ (by simp)
    · by_cases h3 : mbs ≤ 0
      · have hfun : trainDictMain ds ms mbs lvl root op train =
            fun _ => ⟨[], [], 1, some .configError⟩ := by
          funext b
          unfold trainDictMain
          rw [if_neg h1, if_neg h2, if_pos h3]
        rw [hfun]
        exact pushDiscipline_const _ (by simp)
      · cases hcol : collectSamples root ms.toNat mbs.toNat with
        | error e =>
          have hfun : trainDictMain ds ms mbs lvl root op train = fun _ =>
              ⟨[.mkdirOut, .listedInput], [], 1, some .collectFailed⟩ := by
            funext b
            unfold trainDictMain
            rw [if_neg h1, if_neg h2, if_neg h3, hcol]
          rw [hfun]
          exact pushDiscipline_const _ (by simp)
        | ok pr =>
          obtain ⟨samples, stats⟩ := pr
          cases htr : train samples
              ⟨ds, 6, if 0 < lvl then some (parseZstdLevel lvl) else none⟩ with
          | error e =>
            have hfun : trainDictMain ds ms mbs lvl root op train = fun _ =>
                ⟨[.mkdirOut, .listedInput], [], 1, some .trainFailed⟩ := by
              funext b
              unfold trainDictMain
              rw [if_neg h1, if_neg h2, if_neg h3, hcol]
              dsimp only
              rw [htr]
            rw [hfun]
            exact pushDiscipline_const _ (by simp)
          | ok blob =>
            have hfun : trainDictMain ds ms mbs lvl root op train =
                finishRun [.mkdirOut, .listedInput, .didWork] [(op, blob)] := by
              funext b
              unfold trainDictMain
              rw [if_neg h1, if_neg h2, if_neg h3, hcol]
              dsimp only
              rw [htr]
            rw [hfun]
            exact pushDiscipline_finish _ _ [.mkdirOut, .listedInput] rfl

theorem generate_pushDiscipline (dataType : String) (count : Nat)
    (outFile : Fpath) (rng : Rng) (now : String)
    (marshal : GenRecord → String) :
    pushDiscipline (generateMain dataType count outFile rng now marshal) := by
  cases hgen : generateItems dataType rng now count with
  | none =>
    have hfun : generateMain dataType count outFile rng now marshal =
        fun _ => ⟨[], [], 1, some .unknownType⟩ := by
      funext b
      unfold generateMain
      rw [hgen]
    rw [hfun]
    exact pushDiscipline_const _ (by simp)
  | some items =>
    have hfun : generateMain dataType count outFile rng now marshal =
        finishRun [.mkdirOut, .didWork]
          [(outFile, strToBytes (renderJSONArray marshal items))] := by
      funext b
      unfold generateMain
      rw [hgen]
    rw [hfun]
    exact pushDiscipline_finish _ _ [.mkdirOut] rfl

/-- C9: in all four tools the metrics push, when it happens at all, is
the final step, strictly after the main work completed; the files
written by the run are identical whether the push succeeds or fails; and
a failed push makes the run exit with code 1 even though its outputs are
already on disk. -/
theorem metrics_push_after_work (u : Bool) (dp : String) (df : Option Bytes)
    (root : FsNode) (encF : Int → Bytes → Bytes → Bytes) (lvl : Int)
    (decF : Bytes → Bytes → Bytes) (ds ms mbs tlvl : Int) (op : Fpath)
    (train : List Bytes → TrainOptions → Except Unit Bytes)
    (dataType : String) (count : Nat) (outFile : Fpath) (rng : Rng)
    (now : String) (marshal : GenRecord → String) :
    pushDiscipline (compressMain u dp df root encF lvl) ∧
    pushDiscipline (decompressMain u dp df root decF) ∧
    pushDiscipline (trainDictMain ds ms mbs tlvl root op train) ∧
    pushDiscipline (generateMain dataType count outFile rng now marshal) :=
  ⟨compress_pushDiscipline u dp df root encF lvl,
    decompress_pushDiscipline u dp df root decF,
    trainDict_pushDiscipline ds ms mbs tlvl root op train,
    generate_pushDiscipline dataType count outFile rng now marshal⟩

/-- C9 witness: concrete runs of all four tools with a failing push exit
with code 1 while producing the same outputs as the successful-push runs,
which their traces show happen only after the work step. -/
theorem metrics_push_after_work_witness :
    (compressMain false "" none twoFilesTree (fun _ _ b => b) 0 false).outputs =
        (compressMain false "" none twoFilesTree (fun _ _ b => b) 0 true).outputs ∧
      (compressMain false "" none twoFilesTree (fun _ _ b => b) 0 false).exitCode = 1 ∧
      (decompressMain false "" none twoFilesTree (fun _ b => b) false).exitCode = 1 ∧
      (trainDictMain 1024 1000 64 0 twoFilesTree ['d'] (fun _ _ => .ok [0])
          false).exitCode = 1 ∧
      (generateMain "movies" 1 ['o'] wRng "" (fun _ => "") false).exitCode = 1 := by
  have h := metrics_push_after_work false "" none twoFilesTree (fun _ _ b => b)
    0 (fun _ b => b) 1024 1000 64 0 ['d'] (fun _ _ => .ok [0]) "movies" 1 ['o']
    wRng "" (fun _ => "")
  exact ⟨h.1.1, h.1.2.2 (by decide), h.2.1.2.2 (by decide),
    h.2.2.1.2.2 (by decide), h.2.2.2.2.2 (by decide)⟩

/-! ## Claim C10 -/

/-- C10: in both the compressor and the decompressor, when `-use-dict` is
set and `-dict` is empty (or whitespace-only, so that `strings.TrimSpace`
empties it), the process exits with code 1 immediately: the trace is
empty — no output directory is created, no input files are listed, no
file is opened — and nothing is written. -/
theorem use_dict_requires_dict (dictPath : String) (dictFile : Option Bytes)
    (root : FsNode) (encF : Int → Bytes → Bytes → Bytes) (level : Int)
    (decF : Bytes → Bytes → Bytes) (pushOk : Bool)
    (h : (goTrimSpace dictPath).isEmpty = true) :
    compressMain true dictPath dictFile root encF level pushOk =
      ⟨[], [], 1, some .dictRequired⟩ ∧
    decompressMain true dictPath dictFile root decF pushOk =
      ⟨[], [], 1, some .dictRequired⟩ := by
  constructor
  · unfold compressMain
    rw [if_pos (by simp [h])]
  · unfold decompressMain
    rw [if_pos (by simp [h])]

/-- C10 witness: a whitespace-only `-dict` value with `-use-dict`
aborts both tools before any side effect. -/
theorem use_dict_requires_dict_witness :
    compressMain true "  " none twoFilesTree (fun _ _ b => b) 0 true =
      ⟨[], [], 1, some .dictRequired⟩ ∧
    decompressMain true "  " none twoFilesTree (fun _ b => b) true =
      ⟨[], [], 1, some .dictRequired⟩ :=
  use_dict_requires_dict "  " none twoFilesTree (fun _ _ b => b) 0
    (fun _ b => b) true (by decide)
